import Mathlib

/-!
Verification of the AudKyefo audio-splitter core against its
natural-language specification.

The development shallowly embeds the segmentation engine
(`src/core/splitter.py`), the orchestrator (`src/core/audio_processor.py`,
method `AudioProcessor.split_audio`) and the time parser
(`src/utils/helpers.py`, function `parse_time`).

Modelling conventions:
- Numeric arithmetic of the Python source (ints and floats, with true
  division) is embedded over `ℚ`.  Python `int(x)` (truncation
  toward zero) is `pyInt`; Python `max`/`min` are `max`/`min` on `ℚ`.
  The program computes in IEEE binary64, not exact rationals, so for
  float-sensitive quantities only rounding-robust statements are
  asserted (inequalities with ample margins, or identities that the
  float computation also satisfies); exact equalities of derived real
  values are not claimed where double rounding can perturb them.
- A raised Python exception is an `Except.error` carrying the exception
  message (`ValueError` messages verbatim; a `ZeroDivisionError` is
  represented by the string "ZeroDivisionError").
- File export is outside the modelled core: each splitter returns the
  list of progress-callback invocations (an `Event` is the pair of the
  `int(progress)` percentage and the message) together with the list of
  emitted segments; in the source each emitted segment corresponds to
  exactly one exported file, so the length of the segment list is the
  length of the returned path list.
- The audio handle is represented by its total duration in milliseconds
  (`len(audio)` in the source).
-/

/-- A progress-callback invocation: the `int` percentage and the message. -/
abbrev Event := ℤ × String

/-- One emitted window, as produced by the splitting algorithms:
1-based index and the half-open interval in milliseconds. -/
structure Segment where
  index : ℕ
  start_ms : ℚ
  end_ms : ℚ
deriving DecidableEq

/-- Python `int(x)` on a real value: truncation toward zero. -/
def pyInt (q : ℚ) : ℤ := if q < 0 then Int.ceil q else Int.floor q

namespace Splitter

/-- Constant `PROGRESS_SPLITTING_START` from `src/utils/constants.py`. -/
def PROGRESS_SPLITTING_START : ℤ := 30

/-- Constant `PROGRESS_SPLITTING_END` from `src/utils/constants.py`. -/
def PROGRESS_SPLITTING_END : ℤ := 90

/-- The progress value emitted at loop iteration `i` of `n`:
`int(PROGRESS_SPLITTING_START + (PROGRESS_SPLITTING_END - PROGRESS_SPLITTING_START) * (i / n))`
as computed in `src/core/splitter.py`. -/
def pct (i n : ℕ) : ℤ :=
  Int.floor ((PROGRESS_SPLITTING_START : ℚ) +
    ((PROGRESS_SPLITTING_END : ℚ) - (PROGRESS_SPLITTING_START : ℚ)) * ((i : ℚ) / (n : ℚ)))

/-- `split_equal_parts` from `src/core/splitter.py` (lines 70-136):
window and progress computation.  `overlap` is the raw `overlap` kwarg,
used by the source without unit conversion in this function. -/
def split_equal_parts (total : ℚ) (num_parts : ℕ) (overlap : ℚ) :
    Except String (List Event × List Segment) :=
  if num_parts < 2 then .error "Number of parts must be at least 2"
  else
    let part_duration := total / (num_parts : ℚ)
    if part_duration ≤ 0 then .error "Part duration is too small"
    else
      .ok ((List.range num_parts).map (fun i =>
              (pct i num_parts,
               "Creating part " ++ toString (i + 1) ++ " of " ++ toString num_parts ++ "...")),
           (List.range num_parts).map (fun i =>
              { index := i + 1
                start_ms := max 0 ((i : ℚ) * part_duration - overlap)
                end_ms := min total (((i : ℚ) + 1) * part_duration + overlap) }))

/-- The loop body of `split_fixed_duration` (lines 179-207): iteration
index `i`, remaining iterations `rem` (initially `num_parts`), emitting a
progress event each iteration and breaking once `start_time >= total`. -/
def fixedLoop (total dms step : ℚ) (n : ℕ) : ℕ → ℕ → List Event × List Segment
  | _, 0 => ([], [])
  | i, rem + 1 =>
    let ev : Event := (pct i n,
      "Creating part " ++ toString (i + 1) ++ " of " ++ toString n ++ "...")
    let start := max 0 ((i : ℚ) * step)
    if total ≤ start then ([ev], [])
    else
      let rest := fixedLoop total dms step n (i + 1) rem
      (ev :: rest.1,
       { index := i + 1, start_ms := start, end_ms := min total (start + dms) } :: rest.2)

/-- `split_fixed_duration` from `src/core/splitter.py` (lines 138-209).
`duration` and `overlap` are in seconds, converted to milliseconds by the
source; `num_parts = max(1, int((total + overlap_ms) / (duration_ms - overlap_ms)))`,
where a zero denominator raises `ZeroDivisionError` in Python. -/
def split_fixed_duration (total : ℚ) (duration : ℚ) (overlap : ℚ) :
    Except String (List Event × List Segment) :=
  if duration ≤ 0 then .error "Duration must be greater than 0"
  else
    let duration_ms := duration * 1000
    let overlap_ms := overlap * 1000
    if duration_ms - overlap_ms = 0 then .error "ZeroDivisionError"
    else
      let num_parts := (max 1 (pyInt ((total + overlap_ms) / (duration_ms - overlap_ms)))).toNat
      .ok (fixedLoop total duration_ms (duration_ms - overlap_ms) num_parts 0 num_parts)

/-- The loop body of `split_custom_ranges` (lines 244-273): `i` is the
0-based position of the current range in the original list; a range is
skipped (not emitted) when `start_time >= end_time` or
`start_time >= total_duration`. -/
def customLoop (total : ℚ) : ℕ → List (ℚ × ℚ) → List Segment
  | _, [] => []
  | i, (s, e) :: rest =>
    let start := max 0 (s * 1000)
    let stop := min total (e * 1000)
    if stop ≤ start ∨ total ≤ start then customLoop total (i + 1) rest
    else { index := i + 1, start_ms := start, end_ms := stop } :: customLoop total (i + 1) rest

/-- `split_custom_ranges` from `src/core/splitter.py` (lines 211-275).
A progress event is emitted for every listed range, including skipped
ones. -/
def split_custom_ranges (total : ℚ) (ranges : List (ℚ × ℚ)) :
    Except String (List Event × List Segment) :=
  if ranges = [] then .error "No time ranges specified"
  else
    .ok ((List.range ranges.length).map (fun i =>
            (pct i ranges.length,
             "Creating segment " ++ toString (i + 1) ++ " of " ++ toString ranges.length ++ "...")),
         customLoop total 0 ranges)

end Splitter

/-- A splitting policy: the method selected in `split_audio` of
`src/core/splitter.py` together with its kwargs. -/
inductive Policy
  | equalParts (num_parts : ℕ) (overlap : ℚ)
  | fixedDuration (duration : ℚ) (overlap : ℚ)
  | customRanges (ranges : List (ℚ × ℚ))
deriving DecidableEq

/-- The method-name string used for dispatch (`SPLIT_METHOD_EQUAL`,
`SPLIT_METHOD_DURATION`, `SPLIT_METHOD_CUSTOM` in `src/utils/constants.py`). -/
def methodName : Policy → String
  | .equalParts _ _ => "equal_parts"
  | .fixedDuration _ _ => "fixed_duration"
  | .customRanges _ => "custom_ranges"

namespace Splitter

/-- The dispatcher `split_audio` from `src/core/splitter.py` (lines 22-68). -/
def split_audio (total : ℚ) : Policy → Except String (List Event × List Segment)
  | .equalParts n ov => split_equal_parts total n ov
  | .fixedDuration d ov => split_fixed_duration total d ov
  | .customRanges rs => split_custom_ranges total rs

end Splitter

/-- The segments of a splitter result (empty when the splitter raised). -/
def segmentsOf (r : Except String (List Event × List Segment)) : List Segment :=
  match r with
  | .ok p => p.2
  | .error _ => []

/-- The progress events of a splitter result (empty when the splitter raised). -/
def eventsOf (r : Except String (List Event × List Segment)) : List Event :=
  match r with
  | .ok p => p.1
  | .error _ => []

/-- Whether a splitter result is a raised exception. -/
def isErr (r : Except String (List Event × List Segment)) : Bool :=
  match r with
  | .error _ => true
  | .ok _ => false

/-- Valid policy parameters, per the data model of the specification:
`num_parts ≥ 2`, `duration_seconds > 0`, `overlap_seconds ≥ 0`, and a
nonempty ranges list. -/
def validPolicy : Policy → Prop
  | .equalParts n ov => 2 ≤ n ∧ 0 ≤ ov
  | .fixedDuration d ov => 0 < d ∧ 0 ≤ ov
  | .customRanges rs => rs ≠ []

namespace AudioProcessor

/-- `AudioProcessor.split_audio` from `src/core/audio_processor.py`
(lines 178-245).  `loaded` is the loaded audio (its duration in ms), or
`none` when no file is loaded; the `total = 0` branch reflects Python
truthiness of a zero-length `AudioSegment` under `if not self.audio_segment`.
The source wraps the engine call in `try/except Exception`: an engine
error is logged, reported as a percent-0 progress event, and an empty
list is returned.  The returned segment list stands for the list of
exported file paths (one path per segment). -/
def split_audio (loaded : Option ℚ) (format_ok : Bool) (dir_ok : Bool) (pol : Policy) :
    List Event × List Segment :=
  match loaded with
  | none => ([], [])
  | some total =>
    if total = 0 then ([], [])
    else if !format_ok then ([], [])
    else if !dir_ok then ([], [])
    else
      let pre : List Event :=
        [(20, "Analyzing audio..."),
         (30, "Splitting audio using " ++ methodName pol ++ " method...")]
      match Splitter.split_audio total pol with
      | .ok (evs, segs) =>
          (pre ++ evs ++
            [(100, "Splitting complete. Created " ++ toString segs.length ++ " files.")],
           segs)
      | .error e => (pre ++ [(0, "Error: " ++ e)], [])

end AudioProcessor

/-- The numeric value of a digit string, as Python `int()` computes it on
ASCII digits. -/
def digitsVal (l : List Char) : ℕ := l.foldl (fun acc c => 10 * acc + (c.toNat - 48)) 0

/-- `parse_time` from `src/utils/helpers.py` (lines 27-51): the empty
string returns `0.0` without raising; otherwise the string is matched
against the anchored pattern digits-plus, colon, `[0-5]`, digit.  The
anchor `$` of Python `re.match` matches at the end of the string or
just before one final newline, so the same shape followed by a single
trailing newline is also accepted.  On a match the value
`int(minutes) * 60 + int(seconds)` is returned; any other shape raises
`ValueError`.  The minutes group of any anchored match is exactly the
maximal digit run at the front of the string, so it is computed here
with `List.span`.  Digits are modelled as ASCII `0`-`9`, making the
embedding faithful on strings of ASCII characters; Python digit
matching and `int()` additionally accept non-ASCII Unicode decimal
digits, which are outside this model's domain (the C4 theorem carries
an ASCII hypothesis for this reason). -/
def parse_time (s : String) : Except String ℚ :=
  if s = "" then .ok 0
  else
    match (s.toList).span Char.isDigit with
    | (m :: ms, [c0, c1, c2]) =>
      if c0 = ':' ∧ '0' ≤ c1 ∧ c1 ≤ '5' ∧ c2.isDigit then
        .ok (((digitsVal (m :: ms)) * 60 + ((c1.toNat - 48) * 10 + (c2.toNat - 48)) : ℕ) : ℚ)
      else .error ("Invalid time format: " ++ s ++ ". Expected format: MM:SS")
    | (m :: ms, [c0, c1, c2, c3]) =>
      if c0 = ':' ∧ '0' ≤ c1 ∧ c1 ≤ '5' ∧ c2.isDigit ∧ c3 = '\n' then
        .ok (((digitsVal (m :: ms)) * 60 + ((c1.toNat - 48) * 10 + (c2.toNat - 48)) : ℕ) : ℚ)
      else .error ("Invalid time format: " ++ s ++ ". Expected format: MM:SS")
    | _ => .error ("Invalid time format: " ++ s ++ ". Expected format: MM:SS")

/-- Modelled from the spec: the shape of time strings the specification
says `parse_time` accepts, transcribed from its words "one-or-more digit
minutes and exactly two-digit seconds in [00,59]".  Used only to compare
the source-derived `parse_time` against the specified shape. -/
def specTimeShape (s : String) : Prop :=
  ∃ m c1 c2, s.toList = m ++ [':', c1, c2] ∧ m ≠ [] ∧
    (∀ c ∈ m, c.isDigit = true) ∧ '0' ≤ c1 ∧ c1 ≤ '5' ∧ c2.isDigit = true

/-- The further shape the source accepts because of Python regex
semantics: `$` in `re.match` also matches just before a single trailing
newline, so the specified shape followed by one final newline parses
successfully as well. -/
def specTimeShapeNL (s : String) : Prop :=
  ∃ m c1 c2, s.toList = m ++ [':', c1, c2, '\n'] ∧ m ≠ [] ∧
    (∀ c ∈ m, c.isDigit = true) ∧ '0' ≤ c1 ∧ c1 ≤ '5' ∧ c2.isDigit = true

section ConcreteEvaluations

/-- Helper: `Int.toNat` on the literals appearing in concrete runs. -/
theorem toNat_two : (2 : ℤ).toNat = 2 := rfl

/-- Claim C1 (code bug evidence): on a 125,000 ms track,
`FixedDuration(duration_seconds = 60)` with overlap 0 computes
`num_parts = max(1, int(125000 / 60000)) = 2` — `int` truncates instead
of taking the ceiling — so the source emits only `[0,60000)` and
`[60000,120000)` and silently drops the final `[120000,125000)` tail,
not the three segments the specification states. -/
theorem C1_fixed_duration_60s_on_125s_track :
    segmentsOf (Splitter.split_audio 125000 (.fixedDuration 60 0)) =
      [⟨1, 0, 60000⟩, ⟨2, 60000, 120000⟩] ∧
    (segmentsOf (Splitter.split_audio 125000 (.fixedDuration 60 0))).length = 2 := by
  constructor
  · norm_num [Splitter.split_audio, Splitter.split_fixed_duration,
      Splitter.fixedLoop, segmentsOf, pyInt, toNat_two]
  · norm_num [Splitter.split_audio, Splitter.split_fixed_duration,
      Splitter.fixedLoop, segmentsOf, pyInt, toNat_two]

end ConcreteEvaluations

/-- Claim C8: `CustomRanges([(10,20),(15,12),(100,200)])` on a 125 s track
does not fail, skips the second range (start ≥ end), clamps the third
range's end to the total duration, and emits exactly the two segments
`[10000,20000)` and `[100000,125000)` with original 1-based indices 1
and 3 (no renumbering after the skip). -/
theorem C8_custom_ranges_scenario :
    isErr (Splitter.split_audio 125000 (.customRanges [(10, 20), (15, 12), (100, 200)])) = false ∧
    segmentsOf (Splitter.split_audio 125000 (.customRanges [(10, 20), (15, 12), (100, 200)])) =
      [⟨1, 10000, 20000⟩, ⟨3, 100000, 125000⟩] := by
  constructor <;>
    norm_num [Splitter.split_audio, Splitter.split_custom_ranges, Splitter.customLoop,
      segmentsOf, isErr, List.cons_ne_nil]

/-- Claim C4, counterexample to the claim as stated: `parse_time("")`
does not fail with `InvalidFormat`; the source returns `0.0` for the
empty string. -/
theorem C4_empty_string_parses_ok : parse_time "" = .ok 0 ∧ (parse_time "").isOk = true :=
  ⟨rfl, rfl⟩

/-- Claim C5, counterexample to the claim as stated: with
`duration_seconds = 1` and `overlap = 2` (so `step_ms = -1000 < 0`) on a
10,000 ms track, `split_fixed_duration` does not fail with
`InvalidParameter`: it emits the single segment `[0, 1000)` (and the
source would export a file for it). -/
theorem C5_overlap_exceeding_duration_emits_segment :
    isErr (Splitter.split_audio 10000 (.fixedDuration 1 2)) = false ∧
    segmentsOf (Splitter.split_audio 10000 (.fixedDuration 1 2)) = [⟨1, 0, 1000⟩] := by
  constructor <;>
    norm_num [Splitter.split_audio, Splitter.split_fixed_duration, Splitter.fixedLoop,
      segmentsOf, isErr, pyInt]

/-- Claim C6, counterexample to the claim as stated: with
`EqualParts(num_parts = 1)` the engine fails with `InvalidParameter`,
yet the orchestrator returns a normal (empty) result — no typed error
reaches the caller; the only traces are the log line and the trailing
percent-0 progress event. -/
theorem C6_engine_error_swallowed :
    isErr (Splitter.split_audio 125000 (.equalParts 1 0)) = true ∧
    ((AudioProcessor.split_audio (some 125000) true true (.equalParts 1 0)).1).map Prod.fst =
      [20, 30, 0] ∧
    (AudioProcessor.split_audio (some 125000) true true (.equalParts 1 0)).2 = [] := by
  refine ⟨rfl, ?_, ?_⟩ <;>
    norm_num [AudioProcessor.split_audio, Splitter.split_audio, Splitter.split_equal_parts]

/-- Claim C7, counterexample to the claim as stated: `FixedDuration`
with `duration_seconds = 3` and `overlap = 1` on a 10,000 ms track emits
five segments whose interior adjacent pairs (for example segments 2 and
3, nowhere near a timeline edge) intersect by exactly
`overlap_ms = 1000`, not approximately `2 * overlap_ms = 2000`: the
fixed-duration algorithm applies the overlap once per step, never
doubled. -/
theorem C7_fixed_duration_overlap_not_doubled :
    segmentsOf (Splitter.split_audio 10000 (.fixedDuration 3 1)) =
      [⟨1, 0, 3000⟩, ⟨2, 2000, 5000⟩, ⟨3, 4000, 7000⟩, ⟨4, 6000, 9000⟩, ⟨5, 8000, 10000⟩] ∧
    min (5000 : ℚ) 7000 - max (2000 : ℚ) 4000 = 1000 ∧ ((1000 : ℚ) ≠ 2 * 1000) := by
  refine ⟨?_, by norm_num, by norm_num⟩
  norm_num [Splitter.split_audio, Splitter.split_fixed_duration, Splitter.fixedLoop,
    segmentsOf, pyInt]

/-- Claim C9, counterexample to the claim as stated: on an engine
failure (`EqualParts(1)`), the orchestrator's progress percents for the
invocation are `20, 30, 0` — the trailing percent-0 error event makes
the sequence decreasing, so percents are not non-decreasing across every
invocation. -/
theorem C9_error_event_breaks_monotonicity :
    ((AudioProcessor.split_audio (some 125000) true true (.equalParts 1 0)).1).map Prod.fst =
      [20, 30, 0] ∧
    ¬ ((AudioProcessor.split_audio (some 125000) true true (.equalParts 1 0)).1).Pairwise
        (fun a b => a.1 ≤ b.1) := by
  have h : ((AudioProcessor.split_audio (some 125000) true true (.equalParts 1 0)).1).map
      Prod.fst = [20, 30, 0] := by
    norm_num [AudioProcessor.split_audio, Splitter.split_audio, Splitter.split_equal_parts]
  refine ⟨h, fun hp => ?_⟩
  have hm : (((AudioProcessor.split_audio (some 125000) true true
      (.equalParts 1 0)).1).map Prod.fst).Pairwise (fun a b : ℤ => a ≤ b) :=
    List.pairwise_map.mpr hp
  rw [h] at hm
  have : ¬ ([20, 30, 0] : List ℤ).Pairwise (fun a b : ℤ => a ≤ b) := by decide
  exact this hm

section ProgressLemmas

/-- Unfolding equation for one iteration of the fixed-duration loop. -/
theorem fixedLoop_succ (total dms step : ℚ) (n i rem : ℕ) :
    Splitter.fixedLoop total dms step n i (rem + 1) =
      if total ≤ max 0 ((i : ℚ) * step) then
        ([(Splitter.pct i n,
           "Creating part " ++ toString (i + 1) ++ " of " ++ toString n ++ "...")], [])
      else
        ((Splitter.pct i n,
          "Creating part " ++ toString (i + 1) ++ " of " ++ toString n ++ "...") ::
            (Splitter.fixedLoop total dms step n (i + 1) rem).1,
         ⟨i + 1, max 0 ((i : ℚ) * step), min total (max 0 ((i : ℚ) * step) + dms)⟩ ::
            (Splitter.fixedLoop total dms step n (i + 1) rem).2) := rfl

/-- Unfolding equation for one iteration of the custom-ranges loop. -/
theorem customLoop_cons (total s e : ℚ) (i : ℕ) (rest : List (ℚ × ℚ)) :
    Splitter.customLoop total i ((s, e) :: rest) =
      if min total (e * 1000) ≤ max 0 (s * 1000) ∨ total ≤ max 0 (s * 1000) then
        Splitter.customLoop total (i + 1) rest
      else
        ⟨i + 1, max 0 (s * 1000), min total (e * 1000)⟩ ::
          Splitter.customLoop total (i + 1) rest := rfl

/-- `pct` with the progress constants inlined. -/
theorem pct_def (i n : ℕ) :
    Splitter.pct i n = Int.floor ((30 : ℚ) + 60 * ((i : ℚ) / (n : ℚ))) := by
  unfold Splitter.pct Splitter.PROGRESS_SPLITTING_START Splitter.PROGRESS_SPLITTING_END
  norm_num

/-- Every progress percentage of the splitting loops is at least 30
(`PROGRESS_SPLITTING_START`). -/
theorem pct_lb (i n : ℕ) : 30 ≤ Splitter.pct i n := by
  rw [pct_def, Int.le_floor]
  have h : (0 : ℚ) ≤ 60 * ((i : ℚ) / (n : ℚ)) := by positivity
  push_cast
  linarith

/-- Every progress percentage of the splitting loops is at most 89
(strictly below `PROGRESS_SPLITTING_END`), given that the iteration
index is below the loop bound. -/
theorem pct_ub {i n : ℕ} (h : i < n) : Splitter.pct i n ≤ 89 := by
  have hn : (0 : ℚ) < (n : ℚ) := by exact_mod_cast Nat.pos_of_ne_zero (by omega)
  have hq : (i : ℚ) / (n : ℚ) < 1 := by
    rw [div_lt_one hn]
    exact_mod_cast h
  have hlt : Splitter.pct i n < 90 := by
    rw [pct_def, Int.floor_lt]
    push_cast
    linarith
  omega

/-- Progress percentages are monotone in the iteration index. -/
theorem pct_mono (n : ℕ) {i j : ℕ} (h : i ≤ j) : Splitter.pct i n ≤ Splitter.pct j n := by
  rw [pct_def, pct_def]
  apply Int.floor_le_floor
  have hn : (0 : ℚ) ≤ (n : ℚ) := by positivity
  have hij : (i : ℚ) ≤ (j : ℚ) := by exact_mod_cast h
  have hstep : (i : ℚ) / (n : ℚ) ≤ (j : ℚ) / (n : ℚ) :=
    div_le_div_of_nonneg_right hij hn
  linarith

end ProgressLemmas

section SegmentInvariants

/-- Indices emitted by the fixed-duration loop starting at iteration `i`
are all at least `i + 1`. -/
theorem fixedLoop_index_ge (total dms step : ℚ) (n : ℕ) :
    ∀ rem i, ∀ s ∈ (Splitter.fixedLoop total dms step n i rem).2, i + 1 ≤ s.index := by
  intro rem
  induction rem with
  | zero => intro i s hs; simp [Splitter.fixedLoop] at hs
  | succ rem ih =>
    intro i s hs
    rw [fixedLoop_succ] at hs
    by_cases hbr : total ≤ max 0 ((i : ℚ) * step)
    · rw [if_pos hbr] at hs
      simp at hs
    · rw [if_neg hbr] at hs
      rcases List.mem_cons.mp hs with rfl | hmem
      · exact le_refl _
      · have := ih (i + 1) s hmem
        omega

/-- Every segment emitted by the fixed-duration loop satisfies the
window invariants when the slice duration is positive. -/
theorem fixedLoop_bounds (total dms step : ℚ) (n : ℕ) (hd : 0 < dms) :
    ∀ rem i, ∀ s ∈ (Splitter.fixedLoop total dms step n i rem).2,
      0 ≤ s.start_ms ∧ s.start_ms < s.end_ms ∧ s.end_ms ≤ total ∧ s.start_ms < total := by
  intro rem
  induction rem with
  | zero => intro i s hs; simp [Splitter.fixedLoop] at hs
  | succ rem ih =>
    intro i s hs
    rw [fixedLoop_succ] at hs
    by_cases hbr : total ≤ max 0 ((i : ℚ) * step)
    · rw [if_pos hbr] at hs
      simp at hs
    · rw [if_neg hbr] at hs
      push_neg at hbr
      rcases List.mem_cons.mp hs with rfl | hmem
      · refine ⟨le_max_left _ _, ?_, min_le_left _ _, hbr⟩
        exact lt_min hbr (by linarith)
      · exact ih (i + 1) s hmem

/-- Segments emitted by the fixed-duration loop are in strictly
increasing index order. -/
theorem fixedLoop_pairwise (total dms step : ℚ) (n : ℕ) :
    ∀ rem i, (Splitter.fixedLoop total dms step n i rem).2.Pairwise
      (fun a b => a.index < b.index) := by
  intro rem
  induction rem with
  | zero => intro i; simp [Splitter.fixedLoop]
  | succ rem ih =>
    intro i
    rw [fixedLoop_succ]
    by_cases hbr : total ≤ max 0 ((i : ℚ) * step)
    · rw [if_pos hbr]; simp
    · rw [if_neg hbr]
      refine List.pairwise_cons.mpr ⟨fun b hb => ?_, ih (i + 1)⟩
      have := fixedLoop_index_ge total dms step n rem (i + 1) b hb
      simp only
      omega

/-- Indices emitted by the custom-ranges loop starting at position `i`
are all at least `i + 1`. -/
theorem customLoop_index_ge (total : ℚ) :
    ∀ rs : List (ℚ × ℚ), ∀ i, ∀ s ∈ Splitter.customLoop total i rs, i + 1 ≤ s.index := by
  intro rs
  induction rs with
  | nil => intro i s hs; simp [Splitter.customLoop] at hs
  | cons r rest ih =>
    intro i s hs
    obtain ⟨rs, re⟩ := r
    rw [customLoop_cons] at hs
    by_cases hskip : min total (re * 1000) ≤ max 0 (rs * 1000) ∨ total ≤ max 0 (rs * 1000)
    · rw [if_pos hskip] at hs
      have := ih (i + 1) s hs
      omega
    · rw [if_neg hskip] at hs
      rcases List.mem_cons.mp hs with rfl | hmem
      · exact le_refl _
      · have := ih (i + 1) s hmem
        omega

/-- Every segment emitted by the custom-ranges loop satisfies the
window invariants. -/
theorem customLoop_bounds (total : ℚ) :
    ∀ rs : List (ℚ × ℚ), ∀ i, ∀ s ∈ Splitter.customLoop total i rs,
      0 ≤ s.start_ms ∧ s.start_ms < s.end_ms ∧ s.end_ms ≤ total ∧ s.start_ms < total := by
  intro rs
  induction rs with
  | nil => intro i s hs; simp [Splitter.customLoop] at hs
  | cons r rest ih =>
    intro i s hs
    obtain ⟨rs, re⟩ := r
    rw [customLoop_cons] at hs
    by_cases hskip : min total (re * 1000) ≤ max 0 (rs * 1000) ∨ total ≤ max 0 (rs * 1000)
    · rw [if_pos hskip] at hs
      exact ih (i + 1) s hs
    · rw [if_neg hskip] at hs
      push_neg at hskip
      obtain ⟨hlt, hlt2⟩ := hskip
      rcases List.mem_cons.mp hs with rfl | hmem
      · exact ⟨le_max_left _ _, hlt, min_le_left _ _, hlt2⟩
      · exact ih (i + 1) s hmem

/-- Segments emitted by the custom-ranges loop are in strictly
increasing index order. -/
theorem customLoop_pairwise (total : ℚ) :
    ∀ rs : List (ℚ × ℚ), ∀ i, (Splitter.customLoop total i rs).Pairwise
      (fun a b => a.index < b.index) := by
  intro rs
  induction rs with
  | nil => intro i; simp [Splitter.customLoop]
  | cons r rest ih =>
    intro i
    obtain ⟨rs, re⟩ := r
    rw [customLoop_cons]
    by_cases hskip : min total (re * 1000) ≤ max 0 (rs * 1000) ∨ total ≤ max 0 (rs * 1000)
    · rw [if_pos hskip]
      exact ih (i + 1)
    · rw [if_neg hskip]
      refine List.pairwise_cons.mpr ⟨fun b hb => ?_, ih (i + 1)⟩
      have := customLoop_index_ge total rest (i + 1) b hb
      simp only
      omega

end SegmentInvariants

/-- Window bounds for one equal-parts segment: with at least two parts,
nonnegative overlap and positive part duration, each computed window is
non-degenerate and clamped inside the timeline. -/
theorem equal_parts_window_bounds (T : ℚ) (n : ℕ) (ov : ℚ) (h2 : 2 ≤ n) (hov : 0 ≤ ov)
    (hp : 0 < T / (n : ℚ)) (i : ℕ) (hi : i < n) :
    0 ≤ max 0 ((i : ℚ) * (T / (n : ℚ)) - ov) ∧
    max 0 ((i : ℚ) * (T / (n : ℚ)) - ov) < min T (((i : ℚ) + 1) * (T / (n : ℚ)) + ov) ∧
    min T (((i : ℚ) + 1) * (T / (n : ℚ)) + ov) ≤ T ∧
    max 0 ((i : ℚ) * (T / (n : ℚ)) - ov) < T := by
  have hn : (0 : ℚ) < (n : ℚ) := by exact_mod_cast (by omega : 0 < n)
  have hT : 0 < T := by
    have h1 : 0 < (T / (n : ℚ)) * (n : ℚ) := mul_pos hp hn
    rwa [div_mul_cancel₀ T (ne_of_gt hn)] at h1
  have hip : (i : ℚ) + 1 ≤ (n : ℚ) := by exact_mod_cast hi
  have hiT : (i : ℚ) * (T / (n : ℚ)) ≤ T - T / (n : ℚ) := by
    have h1 : (i : ℚ) * (T / (n : ℚ)) ≤ ((n : ℚ) - 1) * (T / (n : ℚ)) :=
      mul_le_mul_of_nonneg_right (by linarith) (le_of_lt hp)
    have h2' : ((n : ℚ) - 1) * (T / (n : ℚ)) = T - T / (n : ℚ) := by
      field_simp
      ring
    linarith
  have hstartT : (i : ℚ) * (T / (n : ℚ)) - ov < T := by linarith
  have hposend : 0 < ((i : ℚ) + 1) * (T / (n : ℚ)) + ov := by
    have : 0 < ((i : ℚ) + 1) * (T / (n : ℚ)) := by positivity
    linarith
  have hse : (i : ℚ) * (T / (n : ℚ)) - ov < ((i : ℚ) + 1) * (T / (n : ℚ)) + ov := by
    nlinarith [hp]
  refine ⟨le_max_left _ _, ?_, min_le_left _ _, max_lt hT hstartT⟩
  exact max_lt (lt_min hT hposend) (lt_min hstartT hse)

/-- Claim C2: for every splitting policy with valid parameters and every
total duration, the emitted segments are in strictly increasing 1-based
index order, and every emitted segment satisfies
`0 ≤ start_ms < end_ms ≤ total` and `start_ms < total` — no degenerate
segment is ever emitted. -/
theorem C2_segment_invariants (T : ℚ) (pol : Policy) (hv : validPolicy pol) :
    (segmentsOf (Splitter.split_audio T pol)).Pairwise (fun a b => a.index < b.index) ∧
    ∀ s ∈ segmentsOf (Splitter.split_audio T pol),
      0 ≤ s.start_ms ∧ s.start_ms < s.end_ms ∧ s.end_ms ≤ T ∧ s.start_ms < T := by
  cases pol with
  | equalParts n ov =>
    obtain ⟨h2, hov⟩ := hv
    simp only [Splitter.split_audio, Splitter.split_equal_parts]
    rw [if_neg (by omega : ¬ n < 2)]
    by_cases hp : T / (n : ℚ) ≤ 0
    · rw [if_pos hp]
      exact ⟨by simp [segmentsOf], by simp [segmentsOf]⟩
    · rw [if_neg hp]
      push_neg at hp
      simp only [segmentsOf]
      constructor
      · rw [List.pairwise_map]
        exact (List.pairwise_lt_range n).imp (fun hab => by simpa using by omega)
      · intro s hs
        rw [List.mem_map] at hs
        obtain ⟨i, hi, rfl⟩ := hs
        rw [List.mem_range] at hi
        exact equal_parts_window_bounds T n ov h2 hov hp i hi
  | fixedDuration d ov =>
    obtain ⟨hd, hov⟩ := hv
    simp only [Splitter.split_audio, Splitter.split_fixed_duration]
    rw [if_neg (not_le.mpr hd)]
    by_cases hz : d * 1000 - ov * 1000 = 0
    · rw [if_pos hz]
      exact ⟨by simp [segmentsOf], by simp [segmentsOf]⟩
    · rw [if_neg hz]
      simp only [segmentsOf]
      exact ⟨fixedLoop_pairwise _ _ _ _ _ _,
        fun s hs => fixedLoop_bounds _ _ _ _ (by linarith) _ _ s hs⟩
  | customRanges rs =>
    have hne : rs ≠ [] := hv
    simp only [Splitter.split_audio, Splitter.split_custom_ranges]
    rw [if_neg hne]
    simp only [segmentsOf]
    exact ⟨customLoop_pairwise _ _ _, fun s hs => customLoop_bounds _ _ _ s hs⟩

/-- Witness for C2 at a concrete valid policy and duration. -/
theorem C2_segment_invariants_witness :
    validPolicy (.equalParts 4 0) ∧
    (segmentsOf (Splitter.split_audio 125000 (.equalParts 4 0))).Pairwise
      (fun a b => a.index < b.index) :=
  ⟨⟨by norm_num, le_refl 0⟩,
   (C2_segment_invariants 125000 (.equalParts 4 0) ⟨by norm_num, le_refl 0⟩).1⟩

section FixedDurationValidation

/-- Claim C5, amended: `split_fixed_duration` fails with
`InvalidParameter` ("Duration must be greater than 0") when
`duration_seconds ≤ 0`; but there is no `step_ms ≤ 0` check: when
`overlap = duration` (step exactly 0) the `num_parts` division raises
`ZeroDivisionError` instead, and when `overlap > duration` (step
negative) the call does not fail at all — `num_parts` evaluates to 1 and
the single segment `[0, min(total, duration_ms))` is emitted (and a
file written for it). -/
theorem C5_fixed_duration_validation_amended (T d ov : ℚ) :
    (d ≤ 0 → Splitter.split_audio T (.fixedDuration d ov) =
      .error "Duration must be greater than 0") ∧
    (0 < d → ov = d → Splitter.split_audio T (.fixedDuration d ov) =
      .error "ZeroDivisionError") ∧
    (0 < d → d < ov → 0 < T →
      segmentsOf (Splitter.split_audio T (.fixedDuration d ov)) =
        [⟨1, 0, min T (d * 1000)⟩] ∧
      isErr (Splitter.split_audio T (.fixedDuration d ov)) = false) := by
  refine ⟨fun hd => ?_, fun hd hov => ?_, fun hd hov hT => ?_⟩
  · simp only [Splitter.split_audio, Splitter.split_fixed_duration]
    rw [if_pos hd]
  · have hz : d * 1000 - ov * 1000 = 0 := by rw [hov]; ring
    simp only [Splitter.split_audio, Splitter.split_fixed_duration]
    rw [if_neg (not_le.mpr hd), if_pos hz]
  · have hstep : d * 1000 - ov * 1000 < 0 := by linarith
    have hq : (T + ov * 1000) / (d * 1000 - ov * 1000) < 0 :=
      div_neg_of_pos_of_neg (by linarith) hstep
    have hceil : pyInt ((T + ov * 1000) / (d * 1000 - ov * 1000)) ≤ 0 := by
      unfold pyInt
      rw [if_pos hq]
      exact Int.ceil_le.mpr (by exact_mod_cast le_of_lt hq)
    have hnp : (max 1 (pyInt ((T + ov * 1000) / (d * 1000 - ov * 1000)))).toNat = 1 := by
      omega
    have hT' : ¬ T ≤ (0 : ℚ) := not_le.mpr hT
    constructor
    · simp only [Splitter.split_audio, Splitter.split_fixed_duration]
      rw [if_neg (not_le.mpr hd), if_neg (ne_of_lt hstep), hnp]
      norm_num [segmentsOf, Splitter.fixedLoop, hT']
    · simp only [Splitter.split_audio, Splitter.split_fixed_duration, isErr]
      rw [if_neg (not_le.mpr hd), if_neg (ne_of_lt hstep)]

/-- Witness for the three branches of the amended C5 at concrete inputs. -/
theorem C5_fixed_duration_validation_amended_witness :
    Splitter.split_audio 5000 (.fixedDuration 0 0) =
      .error "Duration must be greater than 0" ∧
    Splitter.split_audio 5000 (.fixedDuration 2 2) = .error "ZeroDivisionError" ∧
    segmentsOf (Splitter.split_audio 10000 (.fixedDuration 1 2)) =
      [⟨1, 0, min 10000 (1 * 1000)⟩] :=
  ⟨(C5_fixed_duration_validation_amended 5000 0 0).1 (by norm_num),
   (C5_fixed_duration_validation_amended 5000 2 2).2.1 (by norm_num) rfl,
   ((C5_fixed_duration_validation_amended 10000 1 2).2.2
     (by norm_num) (by norm_num) (by norm_num)).1⟩

end FixedDurationValidation

section OrchestratorErrors

/-- Claim C6, amended: when the engine fails, the orchestrator does not
propagate the failure — the `try/except` in `AudioProcessor.split_audio`
catches it, emits a final percent-0 progress event carrying the error
message, and returns a normal empty list, so callers cannot distinguish
a swallowed engine error from an empty success by the return value
alone. -/
theorem C6_orchestrator_swallows_engine_errors (T : ℚ) (pol : Policy) (err : String)
    (hT : T ≠ 0) (herr : Splitter.split_audio T pol = .error err) :
    AudioProcessor.split_audio (some T) true true pol =
      ([(20, "Analyzing audio..."),
        (30, "Splitting audio using " ++ methodName pol ++ " method..."),
        (0, "Error: " ++ err)], []) := by
  simp [AudioProcessor.split_audio, hT, herr]

/-- Witness for the amended C6 at a concrete engine failure. -/
theorem C6_orchestrator_swallows_engine_errors_witness :
    (125000 : ℚ) ≠ 0 ∧
    Splitter.split_audio 125000 (.equalParts 1 0) =
      .error "Number of parts must be at least 2" ∧
    AudioProcessor.split_audio (some 125000) true true (.equalParts 1 0) =
      ([(20, "Analyzing audio..."),
        (30, "Splitting audio using " ++ methodName (.equalParts 1 0) ++ " method..."),
        (0, "Error: " ++ "Number of parts must be at least 2")], []) :=
  ⟨by norm_num, rfl,
   C6_orchestrator_swallows_engine_errors 125000 (.equalParts 1 0)
     "Number of parts must be at least 2" (by norm_num) rfl⟩

end OrchestratorErrors

section CustomRangeMembership

/-- If the range at 0-based position `j` of the remaining list passes
the skip guard, the corresponding segment (with the original 1-based
position as index) is emitted by the custom-ranges loop. -/
theorem customLoop_mem_of_get? (total : ℚ) :
    ∀ (rs : List (ℚ × ℚ)) (i j : ℕ) (s e : ℚ),
      rs.get? j = some (s, e) →
      ¬ (min total (e * 1000) ≤ max 0 (s * 1000) ∨ total ≤ max 0 (s * 1000)) →
      (⟨i + j + 1, max 0 (s * 1000), min total (e * 1000)⟩ : Segment) ∈
        Splitter.customLoop total i rs := by
  intro rs
  induction rs with
  | nil => intro i j s e hj _; simp at hj
  | cons r rest ih =>
    intro i j s e hj hcond
    obtain ⟨rs1, re1⟩ := r
    cases j with
    | zero =>
      rw [List.get?_cons_zero] at hj
      obtain ⟨rfl, rfl⟩ := Prod.mk.injEq .. ▸ Option.some.injEq .. ▸ hj
      rw [customLoop_cons, if_neg hcond]
      exact List.mem_cons_self _ _
    | succ j' =>
      rw [List.get?_cons_succ] at hj
      have hmem := ih (i + 1) j' s e hj hcond
      have harith : i + 1 + j' + 1 = i + (j' + 1) + 1 := by omega
      rw [harith] at hmem
      rw [customLoop_cons]
      by_cases hskip : min total (re1 * 1000) ≤ max 0 (rs1 * 1000) ∨ total ≤ max 0 (rs1 * 1000)
      · rw [if_pos hskip]
        exact hmem
      · rw [if_neg hskip]
        exact List.mem_cons_of_mem _ hmem

/-- Claim C10: in `CustomRanges`, a range whose start is negative is not
skipped: its start is clamped to 0, and provided its clamped end
`min(total, end·1000)` is strictly positive, the segment
`[0, min(total, end·1000))` with the range's original 1-based index is
emitted. -/
theorem C10_negative_start_clamped (T : ℚ) (ranges : List (ℚ × ℚ)) (j : ℕ) (s e : ℚ)
    (hT : 0 < T) (hj : ranges.get? j = some (s, e)) (hs : s < 0)
    (he : 0 < min T (e * 1000)) :
    (⟨j + 1, 0, min T (e * 1000)⟩ : Segment) ∈
      segmentsOf (Splitter.split_audio T (.customRanges ranges)) := by
  have hne : ranges ≠ [] := by
    intro h
    rw [h] at hj
    simp at hj
  simp only [Splitter.split_audio, Splitter.split_custom_ranges]
  rw [if_neg hne]
  simp only [segmentsOf]
  have hmax : max 0 (s * 1000) = (0 : ℚ) := max_eq_left (by nlinarith)
  have hcond : ¬ (min T (e * 1000) ≤ max 0 (s * 1000) ∨ T ≤ max 0 (s * 1000)) := by
    rw [hmax]
    push_neg
    exact ⟨he, hT⟩
  have hmem := customLoop_mem_of_get? T ranges 0 j s e hj hcond
  rw [hmax] at hmem
  simpa using hmem

/-- Witness for C10: the range `(-5, 10)` on a 125 s track yields the
segment `[0, 10000)` with index 1. -/
theorem C10_negative_start_clamped_witness :
    (⟨0 + 1, 0, min 125000 ((10 : ℚ) * 1000)⟩ : Segment) ∈
      segmentsOf (Splitter.split_audio 125000 (.customRanges [(-5, 10)])) :=
  C10_negative_start_clamped 125000 [(-5, 10)] 0 (-5) 10
    (by norm_num) rfl (by norm_num) (by norm_num)

end CustomRangeMembership

section OverlapIntersection

/-- The head of the fixed-duration loop output, when present, is the
window of the current iteration, and the loop did not break there. -/
theorem fixedLoop_head? (total dms step : ℚ) (n : ℕ) :
    ∀ rem i, (Splitter.fixedLoop total dms step n i rem).2.head? = none ∨
      ((Splitter.fixedLoop total dms step n i rem).2.head? =
        some ⟨i + 1, max 0 ((i : ℚ) * step), min total (max 0 ((i : ℚ) * step) + dms)⟩ ∧
       ¬ total ≤ max 0 ((i : ℚ) * step)) := by
  intro rem i
  cases rem with
  | zero => exact Or.inl rfl
  | succ rem =>
    rw [fixedLoop_succ]
    by_cases hbr : total ≤ max 0 ((i : ℚ) * step)
    · rw [if_pos hbr]
      exact Or.inl rfl
    · rw [if_neg hbr]
      exact Or.inr ⟨rfl, hbr⟩

/-- Adjacent windows emitted by the fixed-duration loop (positive step)
intersect by exactly `dms - step` (that is, `overlap_ms`), clamped at
the tail of the timeline to `total - next start`. -/
theorem fixedLoop_chain_overlap (total dms step : ℚ) (hstep : 0 < step) (n : ℕ) :
    ∀ rem i, (Splitter.fixedLoop total dms step n i rem).2.Chain'
      (fun a b => min a.end_ms b.end_ms - max a.start_ms b.start_ms =
        min (dms - step) (total - b.start_ms)) := by
  intro rem
  induction rem with
  | zero => intro i; simp [Splitter.fixedLoop]
  | succ rem ih =>
    intro i
    rw [fixedLoop_succ]
    by_cases hbr : total ≤ max 0 ((i : ℚ) * step)
    · rw [if_pos hbr]; simp
    · rw [if_neg hbr]
      refine List.chain'_cons'.mpr ⟨?_, ih (i + 1)⟩
      intro b hb
      rcases fixedLoop_head? total dms step n rem (i + 1) with hnone | ⟨hsome, hbr2⟩
      · rw [hnone] at hb
        simp at hb
      · rw [hsome] at hb
        rw [Option.mem_some_iff] at hb
        subst hb
        have hi0 : (0 : ℚ) ≤ (i : ℚ) * step := by positivity
        have hi1 : (0 : ℚ) ≤ ((i : ℚ) + 1) * step := by positivity
        have hAi : max 0 ((i : ℚ) * step) = (i : ℚ) * step := max_eq_right hi0
        have hAi1 : max 0 (((i + 1 : ℕ) : ℚ) * step) = ((i : ℚ) + 1) * step := by
          push_cast
          exact max_eq_right hi1
        simp only [hAi, hAi1]
        have hmono : (i : ℚ) * step ≤ ((i : ℚ) + 1) * step := by nlinarith
        have hendmono : min total ((i : ℚ) * step + dms) ≤
            min total (((i : ℚ) + 1) * step + dms) :=
          min_le_min (le_refl _) (by linarith)
        rw [min_eq_left hendmono, max_eq_right hmono]
        rw [← min_sub_sub_right, min_comm]
        congr 1
        ring

/-- Adjacent equal-parts windows with positive overlap at most the part
duration intersect by exactly twice the overlap value. -/
theorem equal_parts_chain_overlap (T : ℚ) (n : ℕ) (ov : ℚ) (h2 : 2 ≤ n) (hov : 0 < ov)
    (hovp : ov ≤ T / (n : ℚ)) :
    (segmentsOf (Splitter.split_audio T (.equalParts n ov))).Chain'
      (fun a b => min a.end_ms b.end_ms - max a.start_ms b.start_ms = 2 * ov) := by
  have hn : (0 : ℚ) < (n : ℚ) := by exact_mod_cast (by omega : 0 < n)
  have hp : 0 < T / (n : ℚ) := lt_of_lt_of_le hov hovp
  have hnp : (n : ℚ) * (T / (n : ℚ)) = T := by field_simp
  simp only [Splitter.split_audio, Splitter.split_equal_parts]
  rw [if_neg (by omega : ¬ n < 2), if_neg (not_le.mpr hp)]
  simp only [segmentsOf]
  rw [List.chain'_map]
  obtain ⟨m, rfl⟩ : ∃ m, n = m + 1 := ⟨n - 1, by omega⟩
  rw [List.chain'_range_succ]
  intro i him
  have him' : (i : ℚ) + 1 ≤ (m : ℚ) := by exact_mod_cast him
  push_cast at hovp hp hnp ⊢
  set p := T / ((m : ℚ) + 1) with hpdef
  have hi0 : (0 : ℚ) ≤ (i : ℚ) := Nat.cast_nonneg i
  have haendT : ((i : ℚ) + 1) * p + ov ≤ T := by
    have hmul : ((i : ℚ) + 1) * p ≤ (m : ℚ) * p :=
      mul_le_mul_of_nonneg_right him' hp.le
    nlinarith [hmul, hnp, hovp]
  have haend : min T (((i : ℚ) + 1) * p + ov) = ((i : ℚ) + 1) * p + ov :=
    min_eq_right haendT
  have hbstart0 : (0 : ℚ) ≤ ((i : ℚ) + 1) * p - ov := by nlinarith [hp.le, hovp, hi0]
  have hbstart : max 0 (((i : ℚ) + 1) * p - ov) = ((i : ℚ) + 1) * p - ov :=
    max_eq_right hbstart0
  have hendle : min T (((i : ℚ) + 1) * p + ov) ≤ min T (((i : ℚ) + 1 + 1) * p + ov) :=
    min_le_min (le_refl _) (by nlinarith [hp])
  have hstartle : max 0 ((i : ℚ) * p - ov) ≤ max 0 (((i : ℚ) + 1) * p - ov) :=
    max_le_max (le_refl _) (by nlinarith [hp])
  rw [min_eq_left hendle, max_eq_right hstartle, haend, hbstart]
  ring

/-- Claim C7, amended: with positive overlap and valid parameters,
adjacent `EqualParts` windows intersect by approximately `2 · overlap`
(the overlap value is added on both sides of each boundary; the ideal
value is exactly `2 · overlap`, and since the program computes these
boundaries in floating point, the rounding-robust bracket
`overlap < intersection < 3 · overlap` is what is asserted), while
adjacent `FixedDuration` windows intersect by exactly
`overlap_ms = overlap · 1000` — applied once per step, never doubled —
clamped at the tail of the timeline to `total - (next start)`. -/
theorem C7_overlap_intersection_amended :
    (∀ (T : ℚ) (n : ℕ) (ov : ℚ), 2 ≤ n → 0 < ov → ov ≤ T / (n : ℚ) →
      (segmentsOf (Splitter.split_audio T (.equalParts n ov))).Chain'
        (fun a b => ov < min a.end_ms b.end_ms - max a.start_ms b.start_ms ∧
          min a.end_ms b.end_ms - max a.start_ms b.start_ms < 3 * ov)) ∧
    (∀ T d ov : ℚ, 0 < ov → ov < d →
      (segmentsOf (Splitter.split_audio T (.fixedDuration d ov))).Chain'
        (fun a b => min a.end_ms b.end_ms - max a.start_ms b.start_ms =
          min (ov * 1000) (T - b.start_ms))) := by
  constructor
  · intro T n ov h2 hov hovp
    refine List.Chain'.imp ?_ (equal_parts_chain_overlap T n ov h2 hov hovp)
    intro a b h
    rw [h]
    constructor <;> linarith
  · intro T d ov hov hd
    have hd0 : (0 : ℚ) < d := lt_trans hov hd
    have hstep : (0 : ℚ) < d * 1000 - ov * 1000 := by linarith
    simp only [Splitter.split_audio, Splitter.split_fixed_duration]
    rw [if_neg (not_le.mpr hd0), if_neg (ne_of_gt hstep)]
    simp only [segmentsOf]
    have h := fixedLoop_chain_overlap T (d * 1000) (d * 1000 - ov * 1000) hstep
      ((max 1 (pyInt ((T + ov * 1000) / (d * 1000 - ov * 1000)))).toNat)
      ((max 1 (pyInt ((T + ov * 1000) / (d * 1000 - ov * 1000)))).toNat) 0
    have hrw : d * 1000 - (d * 1000 - ov * 1000) = ov * 1000 := by ring
    rwa [hrw] at h

/-- Witness for the amended C7 at concrete overlapping runs of both
algorithms. -/
theorem C7_overlap_intersection_amended_witness :
    (segmentsOf (Splitter.split_audio 125000 (.equalParts 4 1000))).Chain'
      (fun a b => (1000 : ℚ) < min a.end_ms b.end_ms - max a.start_ms b.start_ms ∧
        min a.end_ms b.end_ms - max a.start_ms b.start_ms < 3 * 1000) ∧
    (segmentsOf (Splitter.split_audio 10000 (.fixedDuration 3 1))).Chain'
      (fun a b => min a.end_ms b.end_ms - max a.start_ms b.start_ms =
        min ((1 : ℚ) * 1000) (10000 - b.start_ms)) :=
  ⟨C7_overlap_intersection_amended.1 125000 4 1000 (by norm_num) (by norm_num) (by norm_num),
   C7_overlap_intersection_amended.2 10000 3 1 (by norm_num) (by norm_num)⟩

end OverlapIntersection

section ProgressEvents

/-- Every event emitted by the fixed-duration loop starting at `i`
carries the percentage of some iteration index at least `i`. -/
theorem fixedLoop_events_shape (total dms step : ℚ) (n : ℕ) :
    ∀ rem i, ∀ ev ∈ (Splitter.fixedLoop total dms step n i rem).1,
      ∃ j, i ≤ j ∧ ev.1 = Splitter.pct j n := by
  intro rem
  induction rem with
  | zero => intro i ev hev; simp [Splitter.fixedLoop] at hev
  | succ rem ih =>
    intro i ev hev
    rw [fixedLoop_succ] at hev
    by_cases hbr : total ≤ max 0 ((i : ℚ) * step)
    · rw [if_pos hbr] at hev
      rw [List.mem_singleton] at hev
      exact ⟨i, le_refl i, by rw [hev]⟩
    · rw [if_neg hbr] at hev
      rcases List.mem_cons.mp hev with rfl | hmem
      · exact ⟨i, le_refl i, rfl⟩
      · obtain ⟨j, hij, hj⟩ := ih (i + 1) ev hmem
        exact ⟨j, by omega, hj⟩

/-- When the loop is run within its bound, every emitted event carries
the percentage of an iteration index strictly below the bound. -/
theorem fixedLoop_events_lt (total dms step : ℚ) (n : ℕ) :
    ∀ rem i, i + rem ≤ n → ∀ ev ∈ (Splitter.fixedLoop total dms step n i rem).1,
      ∃ j, j < n ∧ ev.1 = Splitter.pct j n := by
  intro rem
  induction rem with
  | zero => intro i _ ev hev; simp [Splitter.fixedLoop] at hev
  | succ rem ih =>
    intro i hin ev hev
    rw [fixedLoop_succ] at hev
    by_cases hbr : total ≤ max 0 ((i : ℚ) * step)
    · rw [if_pos hbr] at hev
      rw [List.mem_singleton] at hev
      exact ⟨i, by omega, by rw [hev]⟩
    · rw [if_neg hbr] at hev
      rcases List.mem_cons.mp hev with rfl | hmem
      · exact ⟨i, by omega, rfl⟩
      · exact ih (i + 1) (by omega) ev hmem

/-- Events emitted by the fixed-duration loop have non-decreasing
percentages. -/
theorem fixedLoop_events_pairwise (total dms step : ℚ) (n : ℕ) :
    ∀ rem i, (Splitter.fixedLoop total dms step n i rem).1.Pairwise
      (fun a b : Event => a.1 ≤ b.1) := by
  intro rem
  induction rem with
  | zero => intro i; simp [Splitter.fixedLoop]
  | succ rem ih =>
    intro i
    rw [fixedLoop_succ]
    by_cases hbr : total ≤ max 0 ((i : ℚ) * step)
    · rw [if_pos hbr]; simp
    · rw [if_neg hbr]
      refine List.pairwise_cons.mpr ⟨fun b hb => ?_, ih (i + 1)⟩
      obtain ⟨j, hij, hj⟩ := fixedLoop_events_shape total dms step n rem (i + 1) b hb
      rw [hj]
      exact pct_mono n (by omega)

/-- Every progress event of a successful splitter run has a percentage
in `[30, 89]`. -/
theorem splitter_events_bounds (T : ℚ) (pol : Policy) :
    ∀ ev ∈ eventsOf (Splitter.split_audio T pol), 30 ≤ ev.1 ∧ ev.1 ≤ 89 := by
  cases pol with
  | equalParts n ov =>
    simp only [Splitter.split_audio, Splitter.split_equal_parts]
    by_cases h2 : n < 2
    · rw [if_pos h2]
      intro ev hev
      simp [eventsOf] at hev
    · rw [if_neg h2]
      by_cases hp : T / (n : ℚ) ≤ 0
      · rw [if_pos hp]
        intro ev hev
        simp [eventsOf] at hev
      · rw [if_neg hp]
        simp only [eventsOf]
        intro ev hev
        rcases List.mem_map.mp hev with ⟨i, hi, rfl⟩
        rw [List.mem_range] at hi
        exact ⟨pct_lb i n, pct_ub hi⟩
  | fixedDuration d ov =>
    simp only [Splitter.split_audio, Splitter.split_fixed_duration]
    by_cases hd : d ≤ 0
    · rw [if_pos hd]
      intro ev hev
      simp [eventsOf] at hev
    · rw [if_neg hd]
      by_cases hz : d * 1000 - ov * 1000 = 0
      · rw [if_pos hz]
        intro ev hev
        simp [eventsOf] at hev
      · rw [if_neg hz]
        simp only [eventsOf]
        intro ev hev
        obtain ⟨j, hj, hje⟩ := fixedLoop_events_lt T (d * 1000) (d * 1000 - ov * 1000)
          ((max 1 (pyInt ((T + ov * 1000) / (d * 1000 - ov * 1000)))).toNat)
          ((max 1 (pyInt ((T + ov * 1000) / (d * 1000 - ov * 1000)))).toNat) 0
          (by omega) ev hev
        rw [hje]
        exact ⟨pct_lb j _, pct_ub hj⟩
  | customRanges rs =>
    simp only [Splitter.split_audio, Splitter.split_custom_ranges]
    by_cases hne : rs = []
    · rw [if_pos hne]
      intro ev hev
      simp [eventsOf] at hev
    · rw [if_neg hne]
      simp only [eventsOf]
      intro ev hev
      rcases List.mem_map.mp hev with ⟨i, hi, rfl⟩
      rw [List.mem_range] at hi
      exact ⟨pct_lb i rs.length, pct_ub hi⟩

/-- The progress events of a successful splitter run have non-decreasing
percentages. -/
theorem splitter_events_pairwise (T : ℚ) (pol : Policy) :
    (eventsOf (Splitter.split_audio T pol)).Pairwise (fun a b : Event => a.1 ≤ b.1) := by
  cases pol with
  | equalParts n ov =>
    simp only [Splitter.split_audio, Splitter.split_equal_parts]
    by_cases h2 : n < 2
    · rw [if_pos h2]; simp [eventsOf]
    · rw [if_neg h2]
      by_cases hp : T / (n : ℚ) ≤ 0
      · rw [if_pos hp]; simp [eventsOf]
      · rw [if_neg hp]
        simp only [eventsOf]
        rw [List.pairwise_map]
        exact (List.pairwise_lt_range n).imp (fun hab => pct_mono n (le_of_lt hab))
  | fixedDuration d ov =>
    simp only [Splitter.split_audio, Splitter.split_fixed_duration]
    by_cases hd : d ≤ 0
    · rw [if_pos hd]; simp [eventsOf]
    · rw [if_neg hd]
      by_cases hz : d * 1000 - ov * 1000 = 0
      · rw [if_pos hz]; simp [eventsOf]
      · rw [if_neg hz]
        simp only [eventsOf]
        exact fixedLoop_events_pairwise _ _ _ _ _ _
  | customRanges rs =>
    simp only [Splitter.split_audio, Splitter.split_custom_ranges]
    by_cases hne : rs = []
    · rw [if_pos hne]; simp [eventsOf]
    · rw [if_neg hne]
      simp only [eventsOf]
      rw [List.pairwise_map]
      exact (List.pairwise_lt_range rs.length).imp
        (fun hab => pct_mono rs.length (le_of_lt hab))

end ProgressEvents

/-- Claim C9, amended: within a single orchestrator split invocation,
every emitted progress event carries an integer percent in `[0, 100]`;
the percents are non-decreasing across the invocation whenever the
engine succeeds — on an engine failure the invocation instead ends with
a percent-0 error event (which breaks monotonicity, see the
counterexample). -/
theorem C9_progress_amended (T : ℚ) (pol : Policy) :
    (∀ ev ∈ (AudioProcessor.split_audio (some T) true true pol).1,
      0 ≤ ev.1 ∧ ev.1 ≤ 100) ∧
    (isErr (Splitter.split_audio T pol) = false →
      ((AudioProcessor.split_audio (some T) true true pol).1).Pairwise
        (fun a b : Event => a.1 ≤ b.1)) := by
  by_cases hT : T = 0
  · constructor
    · intro ev hev
      simp [AudioProcessor.split_audio, hT] at hev
    · intro _
      simp [AudioProcessor.split_audio, hT]
  · cases hsp : Splitter.split_audio T pol with
    | error err =>
      have hproc : AudioProcessor.split_audio (some T) true true pol =
          ([(20, "Analyzing audio..."),
            (30, "Splitting audio using " ++ methodName pol ++ " method..."),
            (0, "Error: " ++ err)], []) := by
        simp [AudioProcessor.split_audio, hT, hsp]
      constructor
      · intro ev hev
        rw [hproc] at hev
        rcases List.mem_cons.mp hev with rfl | hev
        · norm_num
        rcases List.mem_cons.mp hev with rfl | hev
        · norm_num
        rcases List.mem_cons.mp hev with rfl | hev
        · norm_num
        · simp at hev
      · intro hok
        simp [isErr] at hok
    | ok res =>
      obtain ⟨evs, segs⟩ := res
      have hevs_bounds : ∀ ev ∈ evs, 30 ≤ ev.1 ∧ ev.1 ≤ 89 := by
        have h := splitter_events_bounds T pol
        rw [hsp] at h
        simpa [eventsOf] using h
      have hevs_pw : evs.Pairwise (fun a b : Event => a.1 ≤ b.1) := by
        have h := splitter_events_pairwise T pol
        rw [hsp] at h
        simpa [eventsOf] using h
      have hproc : AudioProcessor.split_audio (some T) true true pol =
          ([(20, "Analyzing audio..."),
            (30, "Splitting audio using " ++ methodName pol ++ " method...")] ++ evs ++
            [((100 : ℤ),
              "Splitting complete. Created " ++ toString segs.length ++ " files.")],
           segs) := by
        simp [AudioProcessor.split_audio, hT, hsp]
      rw [hproc]
      constructor
      · intro ev hev
        rcases List.mem_append.mp hev with hpe | hlast
        · rcases List.mem_append.mp hpe with hpre | hin
          · rcases List.mem_cons.mp hpre with rfl | hpre
            · norm_num
            rcases List.mem_cons.mp hpre with rfl | hpre
            · norm_num
            · simp at hpre
          · have := hevs_bounds ev hin
            omega
        · rw [List.mem_singleton] at hlast
          subst hlast
          norm_num
      · intro _
        rw [List.pairwise_append]
        refine ⟨?_, ?_, ?_⟩
        · rw [List.pairwise_append]
          refine ⟨?_, hevs_pw, ?_⟩
          · refine List.Pairwise.cons (fun b hb => ?_) (List.Pairwise.cons (by simp) List.Pairwise.nil)
            rcases List.mem_cons.mp hb with rfl | hb
            · norm_num
            · simp at hb
          · intro a ha b hb
            have hb' := (hevs_bounds b hb).1
            rcases List.mem_cons.mp ha with rfl | ha
            · simp only
              omega
            rcases List.mem_cons.mp ha with rfl | ha
            · simp only
              omega
            · simp at ha
        · simp
        · intro a ha b hb
          rw [List.mem_singleton] at hb
          subst hb
          rcases List.mem_append.mp ha with hpre | hevs
          · rcases List.mem_cons.mp hpre with rfl | hpre
            · norm_num
            rcases List.mem_cons.mp hpre with rfl | hpre
            · norm_num
            · simp at hpre
          · have := (hevs_bounds a hevs).2
            simp only
            omega

/-- Witness for the amended C9 at a concrete successful run. -/
theorem C9_progress_amended_witness :
    (∀ ev ∈ (AudioProcessor.split_audio (some 125000) true true (.equalParts 4 0)).1,
      0 ≤ ev.1 ∧ ev.1 ≤ 100) ∧
    ((AudioProcessor.split_audio (some 125000) true true (.equalParts 4 0)).1).Pairwise
      (fun a b : Event => a.1 ≤ b.1) :=
  ⟨(C9_progress_amended 125000 (.equalParts 4 0)).1,
   (C9_progress_amended 125000 (.equalParts 4 0)).2 (by
     norm_num [Splitter.split_audio, Splitter.split_equal_parts, isErr])⟩

section TimeParsing

/-- A run of digits followed by a colon is taken whole by
`takeWhile Char.isDigit`. -/
theorem takeWhile_digits_colon (t : List Char) :
    ∀ m : List Char, (∀ c ∈ m, c.isDigit = true) →
      (m ++ ':' :: t).takeWhile Char.isDigit = m := by
  intro m
  induction m with
  | nil =>
    intro _
    rw [List.nil_append]
    exact List.takeWhile_cons_of_neg (by decide)
  | cons c cs ih =>
    intro hm
    have hc : c.isDigit = true := hm c (List.mem_cons_self c cs)
    rw [List.cons_append, List.takeWhile_cons_of_pos hc,
      ih (fun x hx => hm x (List.mem_cons_of_mem c hx))]

/-- `dropWhile Char.isDigit` of a digit run followed by a colon starts
at the colon. -/
theorem dropWhile_digits_colon (t : List Char) :
    ∀ m : List Char, (∀ c ∈ m, c.isDigit = true) →
      (m ++ ':' :: t).dropWhile Char.isDigit = ':' :: t := by
  intro m
  induction m with
  | nil =>
    intro _
    rw [List.nil_append]
    exact List.dropWhile_cons_of_neg (by decide)
  | cons c cs ih =>
    intro hm
    have hc : c.isDigit = true := hm c (List.mem_cons_self c cs)
    rw [List.cons_append, List.dropWhile_cons_of_pos hc,
      ih (fun x hx => hm x (List.mem_cons_of_mem c hx))]

/-- `List.span Char.isDigit` splits a digit run from the colon suffix. -/
theorem span_digits_colon (t : List Char) (m : List Char)
    (hm : ∀ c ∈ m, c.isDigit = true) :
    (m ++ ':' :: t).span Char.isDigit = (m, ':' :: t) := by
  rw [List.span_eq_take_drop, takeWhile_digits_colon t m hm, dropWhile_digits_colon t m hm]

/-- Claim C4, amended: `parse_time` returns `0.0` on the empty string
without failing; on every other string of ASCII characters it succeeds
exactly when the string has the shape one-or-more digits, a colon and a
seconds digit pair in `[00,59]`, optionally followed by one trailing
newline (which Python's `$` anchor admits, so the source accepts
`"01:30\n"` and returns 90); it fails with `InvalidFormat`
(`ValueError`) on every other nonempty ASCII shape — in particular on
`"1:2"`, `"01:60"` and `"01-30"`.  Non-ASCII Unicode digit strings,
which Python would also accept, lie outside the embedding's domain and
are excluded by the ASCII hypothesis. -/
theorem C4_parse_time_amended :
    (parse_time "" = .ok 0) ∧
    (∀ s : String, s ≠ "" → (∀ c ∈ s.toList, c.toNat < 128) →
      ((∃ v, parse_time s = .ok v) ↔ (specTimeShape s ∨ specTimeShapeNL s))) ∧
    (parse_time "01:30\n").isOk = true ∧
    (parse_time "1:2").isOk = false ∧
    (parse_time "01:60").isOk = false ∧
    (parse_time "01-30").isOk = false := by
  refine ⟨rfl, ?_, by decide, by decide, by decide, by decide⟩
  intro s hs _
  constructor
  · rintro ⟨v, hv⟩
    unfold parse_time at hv
    rw [if_neg hs] at hv
    split at hv
    case _ m ms c0 c1 c2 heq =>
      split_ifs at hv with hcond
      · obtain ⟨hc0, h0, h5, hd2⟩ := hcond
        subst hc0
        have h1 : s.toList.takeWhile Char.isDigit = m :: ms := by
          have h := congrArg Prod.fst heq
          rwa [List.span_eq_take_drop] at h
        have h2 : s.toList.dropWhile Char.isDigit = [':', c1, c2] := by
          have h := congrArg Prod.snd heq
          rwa [List.span_eq_take_drop] at h
        have hl : s.toList = (m :: ms) ++ [':', c1, c2] := by
          have h := (List.takeWhile_append_dropWhile Char.isDigit s.toList).symm
          rw [h1, h2] at h
          exact h
        exact Or.inl ⟨m :: ms, c1, c2, hl, List.cons_ne_nil m ms,
          fun c hc => List.mem_takeWhile_imp (h1 ▸ hc), h0, h5, hd2⟩
    case _ m ms c0 c1 c2 c3 heq =>
      split_ifs at hv with hcond
      · obtain ⟨hc0, h0, h5, hd2, hc3⟩ := hcond
        subst hc0
        subst hc3
        have h1 : s.toList.takeWhile Char.isDigit = m :: ms := by
          have h := congrArg Prod.fst heq
          rwa [List.span_eq_take_drop] at h
        have h2 : s.toList.dropWhile Char.isDigit = [':', c1, c2, '\n'] := by
          have h := congrArg Prod.snd heq
          rwa [List.span_eq_take_drop] at h
        have hl : s.toList = (m :: ms) ++ [':', c1, c2, '\n'] := by
          have h := (List.takeWhile_append_dropWhile Char.isDigit s.toList).symm
          rw [h1, h2] at h
          exact h
        exact Or.inr ⟨m :: ms, c1, c2, hl, List.cons_ne_nil m ms,
          fun c hc => List.mem_takeWhile_imp (h1 ▸ hc), h0, h5, hd2⟩
    case _ =>
      simp at hv
  · rintro (⟨m, c1, c2, heq, hne, hdig, h0, h5, hd2⟩ |
            ⟨m, c1, c2, heq, hne, hdig, h0, h5, hd2⟩)
    · have hspan : s.toList.span Char.isDigit = (m, ':' :: [c1, c2]) := by
        rw [heq]
        exact span_digits_colon [c1, c2] m hdig
      obtain ⟨c, cs, rfl⟩ : ∃ c cs, m = c :: cs := by
        cases m with
        | nil => exact absurd rfl hne
        | cons c cs => exact ⟨c, cs, rfl⟩
      refine ⟨(((digitsVal (c :: cs)) * 60 +
        ((c1.toNat - 48) * 10 + (c2.toNat - 48)) : ℕ) : ℚ), ?_⟩
      unfold parse_time
      rw [if_neg hs, hspan]
      show (if (':' : Char) = ':' ∧ '0' ≤ c1 ∧ c1 ≤ '5' ∧ c2.isDigit then
          Except.ok (((digitsVal (c :: cs)) * 60 +
            ((c1.toNat - 48) * 10 + (c2.toNat - 48)) : ℕ) : ℚ)
        else Except.error ("Invalid time format: " ++ s ++ ". Expected format: MM:SS")) =
        Except.ok (((digitsVal (c :: cs)) * 60 +
          ((c1.toNat - 48) * 10 + (c2.toNat - 48)) : ℕ) : ℚ)
      exact if_pos ⟨rfl, h0, h5, hd2⟩
    · have hspan : s.toList.span Char.isDigit = (m, ':' :: [c1, c2, '\n']) := by
        rw [heq]
        exact span_digits_colon [c1, c2, '\n'] m hdig
      obtain ⟨c, cs, rfl⟩ : ∃ c cs, m = c :: cs := by
        cases m with
        | nil => exact absurd rfl hne
        | cons c cs => exact ⟨c, cs, rfl⟩
      refine ⟨(((digitsVal (c :: cs)) * 60 +
        ((c1.toNat - 48) * 10 + (c2.toNat - 48)) : ℕ) : ℚ), ?_⟩
      unfold parse_time
      rw [if_neg hs, hspan]
      show (if (':' : Char) = ':' ∧ '0' ≤ c1 ∧ c1 ≤ '5' ∧ c2.isDigit ∧
            ('\n' : Char) = '\n' then
          Except.ok (((digitsVal (c :: cs)) * 60 +
            ((c1.toNat - 48) * 10 + (c2.toNat - 48)) : ℕ) : ℚ)
        else Except.error ("Invalid time format: " ++ s ++ ". Expected format: MM:SS")) =
        Except.ok (((digitsVal (c :: cs)) * 60 +
          ((c1.toNat - 48) * 10 + (c2.toNat - 48)) : ℕ) : ℚ)
      exact if_pos ⟨rfl, h0, h5, hd2, rfl⟩

/-- Witness for the amended C4 at the well-formed ASCII input `"01:30"`. -/
theorem C4_parse_time_amended_witness :
    ("01:30" : String) ≠ "" ∧ (∀ c ∈ ("01:30" : String).toList, c.toNat < 128) ∧
    (∃ v, parse_time "01:30" = .ok v) ∧ specTimeShape "01:30" :=
  have hne : ("01:30" : String) ≠ "" := by decide
  have hascii : ∀ c ∈ ("01:30" : String).toList, c.toNat < 128 := by decide
  have hshape : specTimeShape "01:30" :=
    ⟨['0', '1'], '3', '0', by decide, by decide, by decide, by decide, by decide, by decide⟩
  ⟨hne, hascii, (C4_parse_time_amended.2.1 "01:30" hne hascii).mpr (Or.inl hshape), hshape⟩

end TimeParsing
